import Mathlib

/-!
Shallow embedding of the sentiment-agent core pipeline (src/src/agent.py).

Modelling conventions:
* Python floats are modelled as rationals (ℚ); the arithmetic in the source is
  exact decimal arithmetic on small literals, so ℚ is faithful for the stated
  properties.
* `datetime` values are modelled as abstract tick counts (`Nat`); `datetime.now()`
  becomes an explicit `now : Nat` parameter.  `isoformat`/`fromisoformat` are
  modelled as an inverse pair rendering the tick count in decimal, mirroring the
  Python pair's round-trip contract.
* Mutable object state is passed explicitly; the persisted JSON file is modelled
  as an optional list of serialized records held next to the in-memory list.
* Python exceptions are modelled with explicit fault flags at the points where
  the source has `try`/`except` boundaries.
-/

/-- Python `str.lower()`, modelled character-wise on the underlying char list
(so that it evaluates by kernel reduction). -/
def pyLower (s : String) : String :=
  String.mk (s.data.map Char.toLower)

/-- Python `str.split()` with no argument: split on whitespace and drop the
empty pieces. -/
def pySplit (s : String) : List String :=
  ((s.data.splitOnP (fun c => c.isWhitespace)).map String.mk).filter (fun w => w ≠ "")

/-- Scan of all suffixes used to decide the Python substring test. -/
def hasInfix (w : List Char) : List Char → Bool
  | [] => w.isPrefixOf ([] : List Char)
  | c :: rest => w.isPrefixOf (c :: rest) || hasInfix w rest

/-- Python substring membership `w in t` on strings. -/
def pyContains (t w : String) : Bool :=
  hasInfix w.data t.data

/-- Python `max(l, default=d)`: the maximum of the elements, or `d` when the
list is empty (the default is NOT an extra candidate). -/
def pyMax (l : List ℚ) (d : ℚ) : ℚ :=
  match l with
  | [] => d
  | x :: xs => xs.foldl max x

/-- Thought dataclass from agent.py (field-wise equality, as for a Python
dataclass). -/
structure Thought where
  content : String
  timestamp : Nat
  thought_type : String
  confidence : ℚ
  emotional_valence : ℚ
deriving DecidableEq

/-- Memory dataclass from agent.py. -/
structure Memory where
  content : String
  timestamp : Nat
  memory_type : String
  importance : ℚ
  emotional_impact : ℚ
  related_thoughts : List String
deriving DecidableEq

/-- Perception record built by `CoreMind.perceive` (a dict in the source, with
exactly these five keys). -/
structure Perception where
  raw_input : String
  detected_emotion : String
  key_concepts : List String
  question_type : String
  complexity : ℚ
deriving DecidableEq

/-- Positive lexicon of `CoreMind._analyze_emotion`. -/
def positive_words : List String :=
  ["happy", "joy", "love", "good", "excellent", "wonderful"]

/-- Negative lexicon of `CoreMind._analyze_emotion`. -/
def negative_words : List String :=
  ["sad", "angry", "hate", "bad", "terrible", "awful"]

/-- Number of positive-lexicon words occurring (as substrings) in the lowered
text:  `sum(1 for word in positive_words if word in text_lower)`. -/
def positiveCount (text : String) : Nat :=
  (positive_words.filter (fun w => pyContains (pyLower text) w)).length

/-- Number of negative-lexicon words occurring in the lowered text. -/
def negativeCount (text : String) : Nat :=
  (negative_words.filter (fun w => pyContains (pyLower text) w)).length

/-- `CoreMind._analyze_emotion`. -/
def analyze_emotion (text : String) : String :=
  if positiveCount text > negativeCount text then "positive"
  else if negativeCount text > positiveCount text then "negative"
  else "neutral"

/-- `CoreMind._extract_concepts`: first 5 lowered words longer than 4
characters. -/
def extract_concepts (text : String) : List String :=
  ((pySplit (pyLower text)).filter (fun w => w.length > 4)).take 5

/-- `CoreMind._classify_question`. -/
def classify_question (text : String) : String :=
  if pyContains (pyLower text) "what" || pyContains (pyLower text) "how" then "inquiry"
  else if pyContains (pyLower text) "why" then "philosophical"
  else if pyContains text "?" then "question"
  else "statement"

/-- `CoreMind.perceive`. -/
def perceive (stimulus : String) : Perception :=
  { raw_input := stimulus
    detected_emotion := analyze_emotion stimulus
    key_concepts := extract_concepts stimulus
    question_type := classify_question stimulus
    complexity := ((pySplit stimulus).length : ℚ) / 10 }

/-- `CoreMind.respond`: Python `max(thoughts, key=confidence)` keeps the first
maximal element; supporting thoughts are those with confidence above 0.7 that
are not (field-wise) equal to the main thought; parts are joined by a single
space. -/
def respond (thoughts : List Thought) : String :=
  match thoughts with
  | [] => "I'm still processing that... give me a moment to think."
  | t :: ts =>
    let main_thought := ts.foldl (fun acc u => if acc.confidence < u.confidence then u else acc) t
    let supporting_thoughts :=
      (t :: ts).filter (fun u => decide (u.confidence > 0.7) && decide (u ≠ main_thought))
    match supporting_thoughts with
    | [] => "From my perspective, " ++ (pyLower main_thought.content)
    | s :: _ =>
      ("From my perspective, " ++ (pyLower main_thought.content)) ++ " " ++
        ("I also consider that " ++ (pyLower s.content))

/-- Serialized form of one Memory in the JSON file: `asdict(memory)` with the
timestamp replaced by its ISO string. -/
structure MemoryRecord where
  content : String
  timestamp : String
  memory_type : String
  importance : ℚ
  emotional_impact : ℚ
  related_thoughts : List String
deriving DecidableEq

/-- Decimal digit to character. -/
def digitChar : Nat → Char
  | 0 => '0'
  | 1 => '1'
  | 2 => '2'
  | 3 => '3'
  | 4 => '4'
  | 5 => '5'
  | 6 => '6'
  | 7 => '7'
  | 8 => '8'
  | _ => '9'

/-- Character to decimal digit. -/
def charDigit (c : Char) : Nat := c.toNat - 48

/-- Model of `datetime.isoformat`: render the abstract tick count in decimal
(most significant digit first). -/
def isoformat (t : Nat) : String :=
  match Nat.digits 10 t with
  | [] => "0"
  | ds => String.mk (ds.reverse.map digitChar)

/-- Model of `datetime.fromisoformat`: parse the decimal rendering back, failing
(as the Python function raises) on anything that is not such a rendering. -/
def fromisoformat (s : String) : Option Nat :=
  if s.data ≠ [] ∧ s.data.all (fun c => c.isDigit) then
    some (s.data.foldl (fun acc c => acc * 10 + charDigit c) 0)
  else none

/-- One record written by `MemorySystem._save_memories`: `asdict` plus
ISO-formatted timestamp. -/
def record_of_memory (m : Memory) : MemoryRecord :=
  { content := m.content
    timestamp := isoformat m.timestamp
    memory_type := m.memory_type
    importance := m.importance
    emotional_impact := m.emotional_impact
    related_thoughts := m.related_thoughts }

/-- The full list written by `MemorySystem._save_memories`. -/
def save_data (memories : List Memory) : List MemoryRecord :=
  memories.map record_of_memory

/-- One Memory rebuilt by `MemorySystem._load_memories` from a record;
`none` models `datetime.fromisoformat` raising on a malformed timestamp. -/
def memory_of_record (r : MemoryRecord) : Option Memory :=
  (fromisoformat r.timestamp).map (fun t =>
    { content := r.content
      timestamp := t
      memory_type := r.memory_type
      importance := r.importance
      emotional_impact := r.emotional_impact
      related_thoughts := r.related_thoughts })

/-- `MemorySystem._load_memories` applied to parsed file data: the list
comprehension either rebuilds every record or raises midway, in which case
`self.memories` keeps its initial empty value. -/
def load_memories (data : List MemoryRecord) : List Memory :=
  match data.mapM memory_of_record with
  | some ms => ms
  | none => []

/-- State of one MemorySystem: the in-memory list plus the persisted file
(`none` = no file on disk). -/
structure MemState where
  memories : List Memory
  file : Option (List MemoryRecord)
deriving DecidableEq

/-- `MemorySystem._save_memories` with its internal `try`/`except`: a failing
write (`saveFault`) is caught and leaves the file as it was; a successful write
overwrites the file with the serialization of the whole in-memory list. -/
def save_memories (saveFault : Bool) (st : MemState) : MemState :=
  if saveFault then st else { st with file := some (save_data st.memories) }

/-- Does the memory content, lowered and whitespace-tokenized, contain at least
one of the key concepts?  (`any(concept in memory_words ...)` in `recall`.) -/
def tokens_share (key_concepts : List String) (m : Memory) : Bool :=
  key_concepts.any (fun concept => (pySplit (pyLower m.content)).contains concept)

/-- Descending comparison used to model
`sort(key=lambda m: (m.importance, m.timestamp), reverse=True)`:
`memGe a b` holds when a's (importance, timestamp) key is lexicographically at
least b's. -/
def memGe (a b : Memory) : Bool :=
  decide (b.importance < a.importance ∨ (b.importance = a.importance ∧ b.timestamp ≤ a.timestamp))

/-- `MemorySystem.recall`: keep the memories sharing a token with the key
concepts, sort them descending by (importance, timestamp), return the first 3. -/
def recall_memories (memories : List Memory) (perception : Perception) : List Memory :=
  ((memories.filter (fun m => tokens_share perception.key_concepts m)).mergeSort memGe).take 3

/-- `MemorySystem._calculate_importance`. -/
def calculate_importance (perception : Perception) (thoughts : List Thought) : ℚ :=
  let complexity := perception.complexity
  let max_confidence := pyMax (thoughts.map (fun t => t.confidence)) 0
  let emotional_intensity := pyMax (thoughts.map (fun t => |t.emotional_valence|)) 0
  min (complexity * 0.3 + max_confidence * 0.4 + emotional_intensity * 0.3) 1

/-- `MemorySystem._calculate_emotional_impact`. -/
def calculate_emotional_impact (thoughts : List Thought) : ℚ :=
  match thoughts with
  | [] => 0
  | _ => (thoughts.map (fun t => t.emotional_valence)).sum / thoughts.length

/-- The Memory built by `MemorySystem.store`. -/
def store_memory (perception : Perception) (thoughts : List Thought)
    (response : String) (now : Nat) : Memory :=
  { content := "Input: " ++ perception.raw_input ++ " | Response: " ++ response
    timestamp := now
    memory_type := "episodic"
    importance := calculate_importance perception thoughts
    emotional_impact := calculate_emotional_impact thoughts
    related_thoughts := (thoughts.take 2).map (fun t => t.content) }

/-- `MemorySystem.store`: append the new Memory, then rewrite the persisted
file (whose failure is absorbed by `_save_memories`). -/
def store (saveFault : Bool) (perception : Perception) (thoughts : List Thought)
    (response : String) (now : Nat) (st : MemState) : MemState :=
  save_memories saveFault
    { st with memories := st.memories ++ [store_memory perception thoughts response now] }

/-- Trait profile held by `InternalDialogue` (`self.personality_traits`). -/
structure PersonalityTraits where
  curiosity : ℚ
  empathy : ℚ
  skepticism : ℚ
  creativity : ℚ
  introspection : ℚ
deriving DecidableEq

/-- The fixed profile installed by `InternalDialogue.__init__`. -/
def personality_traits : PersonalityTraits :=
  { curiosity := 0.8
    empathy := 0.7
    skepticism := 0.6
    creativity := 0.5
    introspection := 0.9 }

/-- `InternalDialogue._generate_initial_reaction`. -/
def generate_initial_reaction (perception : Perception) (now : Nat) : Thought :=
  if perception.question_type = "philosophical" then
    { content := "This touches on something fundamental that I should consider carefully"
      timestamp := now
      thought_type := "observation"
      confidence := 0.8
      emotional_valence := 0.1 }
  else if perception.question_type = "inquiry" then
    { content := "I need to access what I know about this topic"
      timestamp := now
      thought_type := "observation"
      confidence := 0.9
      emotional_valence := 0.1 }
  else
    { content := "Let me process what this person is communicating to me"
      timestamp := now
      thought_type := "observation"
      confidence := 0.7
      emotional_valence := 0.1 }

/-- `InternalDialogue._reflect_on_memories` (its empty-memories branch is dead
from `contemplate`, which only calls it on a non-empty list). -/
def reflect_on_memories (memories : List Memory) (now : Nat) : Thought :=
  match memories with
  | [] =>
    { content := "I don't have much prior experience with this topic"
      timestamp := now
      thought_type := "reflection"
      confidence := 0.6
      emotional_valence := -0.1 }
  | most_relevant :: _ =>
    { content := "This reminds me of previous experiences, particularly around " ++
        most_relevant.content.take 50 ++ "..."
      timestamp := now
      thought_type := "reflection"
      confidence := 0.8
      emotional_valence := most_relevant.emotional_impact * 0.5 }

/-- `InternalDialogue._meta_reflection` (its perception/thoughts arguments are
unused in the source). -/
def meta_reflection (now : Nat) : Thought :=
  { content := "I notice I'm approaching this in a particular way - let me consider if there are other perspectives"
    timestamp := now
    thought_type := "meta-reflection"
    confidence := 0.7
    emotional_valence := 0.2 }

/-- `InternalDialogue._generate_curious_thought`. -/
def generate_curious_thought (perception : Perception) (now : Nat) : Thought :=
  { content :=
      match perception.key_concepts with
      | concept :: _ => "I wonder about the deeper implications of " ++ concept ++ " in this context"
      | [] => "There might be layers to this that I haven't considered yet"
    timestamp := now
    thought_type := "question"
    confidence := 0.6
    emotional_valence := 0.3 }

/-- `InternalDialogue.contemplate`: step gating reads the engine's own trait
profile (`self.personality_traits`); the `personality` argument is accepted (of
any type, as in the untyped source) and never read. -/
def contemplate {α : Type} (traits : PersonalityTraits) (perception : Perception)
    (memories : List Memory) (personality : α) (now : Nat) : List Thought :=
  let thoughts := [generate_initial_reaction perception now]
  let thoughts := if memories.isEmpty then thoughts else thoughts ++ [reflect_on_memories memories now]
  let thoughts := if traits.introspection > 0.7 then thoughts ++ [meta_reflection now] else thoughts
  let thoughts := if traits.curiosity > 0.6 then thoughts ++ [generate_curious_thought perception now] else thoughts
  thoughts

/-- Fault flags for one `think` cycle: a true flag for a pipeline stage means
that stage raises (before mutating any state, as in the source, where the only
state writes are the final statements of `contemplate` and the pre-save part of
`store`); `saveF` is the absorbed persistence failure inside `_save_memories`. -/
structure StageFaults where
  perceiveF : Bool
  recallF : Bool
  contemplateF : Bool
  respondF : Bool
  storeF : Bool
  saveF : Bool
deriving DecidableEq

/-- State of one SentimentAgent: its MemorySystem, the dialogue engine's
cumulative thought history and trait profile, and `self.personality`
(the boolean mapping built in `SentimentAgent.__init__`). -/
structure AgentState where
  memory : MemState
  dialogue_thoughts : List Thought
  traits : PersonalityTraits
  personality : List (String × Bool)
deriving DecidableEq

/-- The fixed apology returned by `think`'s `except` branch. -/
def fallback_response : String :=
  "I'm having trouble processing that right now. Could you rephrase it?"

/-- The boolean personality mapping from `SentimentAgent.__init__`. -/
def agent_personality : List (String × Bool) :=
  [("introspective", true), ("curious", true), ("empathetic", true), ("analytical", true)]

/-- `SentimentAgent.think`: the five-stage pipeline under a single catch-all;
a raising stage short-circuits to the fixed apology, keeping the state already
written by the completed stages. -/
def think (f : StageFaults) (now : Nat) (agent : AgentState) (stimulus : String) :
    String × AgentState :=
  if f.perceiveF then (fallback_response, agent) else
  let perception := perceive stimulus
  if f.recallF then (fallback_response, agent) else
  let relevant_memories := recall_memories agent.memory.memories perception
  if f.contemplateF then (fallback_response, agent) else
  let thoughts := contemplate agent.traits perception relevant_memories agent.personality now
  let agent1 := { agent with dialogue_thoughts := agent.dialogue_thoughts ++ thoughts }
  if f.respondF then (fallback_response, agent1) else
  let response := respond thoughts
  if f.storeF then (fallback_response, agent1) else
  (response, { agent1 with memory := store f.saveF perception thoughts response now agent1.memory })

/-! ### Helper lemmas -/

theorem le_foldl_max (l : List ℚ) (a : ℚ) : a ≤ l.foldl max a := by
  induction l generalizing a with
  | nil => exact le_refl a
  | cons y ys ih => exact le_trans (le_max_left a y) (ih (max a y))

theorem pyMax_nonneg (l : List ℚ) (d : ℚ) (hd : 0 ≤ d) (hl : ∀ x ∈ l, 0 ≤ x) :
    0 ≤ pyMax l d := by
  cases l with
  | nil => exact hd
  | cons x xs =>
    exact le_trans (hl x (List.mem_cons_self x xs)) (le_foldl_max xs x)

theorem load_memories_sound : ∀ (data : List MemoryRecord) (m : Memory),
    m ∈ load_memories data → ∃ r ∈ data, memory_of_record r = some m := by
  intro data
  induction data with
  | nil => intro m hm; simp [load_memories, List.mapM.loop] at hm
  | cons r rs ih =>
    intro m hm
    unfold load_memories at hm
    rw [List.mapM_cons] at hm
    cases hr : memory_of_record r with
    | none => rw [hr] at hm; simp at hm
    | some b =>
      rw [hr] at hm
      cases hrs : rs.mapM memory_of_record with
      | none => rw [hrs] at hm; simp at hm
      | some bs =>
        rw [hrs] at hm
        simp at hm
        rcases hm with hm | hm
        · exact ⟨r, List.mem_cons_self r rs, by rw [hr, hm]⟩
        · obtain ⟨r2, hr2, he⟩ := ih m (by unfold load_memories; rw [hrs]; exact hm)
          exact ⟨r2, List.mem_cons_of_mem r hr2, he⟩

theorem memory_of_record_related (r : MemoryRecord) (m : Memory)
    (h : memory_of_record r = some m) : m.related_thoughts = r.related_thoughts := by
  unfold memory_of_record at h
  cases hf : fromisoformat r.timestamp with
  | none => rw [hf] at h; simp at h
  | some t =>
    rw [hf] at h
    simp at h
    rw [← h]

theorem store_memories_eq (saveFault : Bool) (perception : Perception)
    (thoughts : List Thought) (response : String) (now : Nat) (st : MemState) :
    (store saveFault perception thoughts response now st).memories =
      st.memories ++ [store_memory perception thoughts response now] := by
  cases saveFault <;> simp [store, save_memories]

/-! ### Claim theorems -/

/-- C1: for every perception record (complexity non-negative, per the data
model) and every list of thoughts (confidences non-negative, per the data
model), the importance computed by `store` lies in [0, 1], whatever the
magnitude of the complexity and whatever the sign and magnitude of the
emotional valences. -/
theorem calculate_importance_in_unit_interval (perception : Perception) (thoughts : List Thought)
    (hc : 0 ≤ perception.complexity)
    (hconf : ∀ t ∈ thoughts, 0 ≤ t.confidence) :
    0 ≤ calculate_importance perception thoughts ∧
      calculate_importance perception thoughts ≤ 1 := by
  unfold calculate_importance
  constructor
  · apply le_min
    · have h1 : 0 ≤ pyMax (thoughts.map (fun t => t.confidence)) 0 := by
        apply pyMax_nonneg _ _ le_rfl
        intro x hx
        obtain ⟨t, ht, rfl⟩ := List.mem_map.mp hx
        exact hconf t ht
      have h2 : 0 ≤ pyMax (thoughts.map (fun t => |t.emotional_valence|)) 0 := by
        apply pyMax_nonneg _ _ le_rfl
        intro x hx
        obtain ⟨t, ht, rfl⟩ := List.mem_map.mp hx
        exact abs_nonneg _
      have h3 : (0:ℚ) ≤ 0.3 := by norm_num
      have h4 : (0:ℚ) ≤ 0.4 := by norm_num
      exact add_nonneg (add_nonneg (mul_nonneg hc h3) (mul_nonneg h1 h4)) (mul_nonneg h2 h3)
    · norm_num
  · exact min_le_right _ _

theorem calculate_importance_in_unit_interval_witness :
    (0 ≤ (Perception.mk "hi there" "neutral" [] "statement" 0.2).complexity ∧
      (∀ t ∈ ([] : List Thought), 0 ≤ t.confidence)) ∧
    (0 ≤ calculate_importance (Perception.mk "hi there" "neutral" [] "statement" 0.2) [] ∧
      calculate_importance (Perception.mk "hi there" "neutral" [] "statement" 0.2) [] ≤ 1) :=
  ⟨⟨by norm_num, by simp⟩,
    calculate_importance_in_unit_interval _ [] (by norm_num) (by simp)⟩

/-- C2: the Memory created by `store` carries at most 2 related thoughts; both
`store` (on a store whose memories already satisfy the bound) and
`_load_memories` (on persisted data whose records satisfy the bound, as any
data written by `_save_memories` from such a store does) preserve the
invariant. -/
theorem related_thoughts_at_most_two
    (perception : Perception) (thoughts : List Thought) (response : String) (now : Nat)
    (saveFault : Bool) (st : MemState) (data : List MemoryRecord)
    (hst : ∀ m ∈ st.memories, m.related_thoughts.length ≤ 2)
    (hdata : ∀ r ∈ data, r.related_thoughts.length ≤ 2) :
    (store_memory perception thoughts response now).related_thoughts.length ≤ 2 ∧
    (∀ m ∈ (store saveFault perception thoughts response now st).memories,
        m.related_thoughts.length ≤ 2) ∧
    (∀ m ∈ load_memories data, m.related_thoughts.length ≤ 2) := by
  have hnew : (store_memory perception thoughts response now).related_thoughts.length ≤ 2 := by
    simp [store_memory]
  refine ⟨hnew, ?_, ?_⟩
  · intro m hm
    rw [store_memories_eq] at hm
    rcases List.mem_append.mp hm with h | h
    · exact hst m h
    · rw [List.mem_singleton.mp h]
      exact hnew
  · intro m hm
    obtain ⟨r, hr, he⟩ := load_memories_sound data m hm
    rw [memory_of_record_related r m he]
    exact hdata r hr

theorem related_thoughts_at_most_two_witness :
    (store_memory (Perception.mk "s" "neutral" [] "statement" 0) [] "r" 7).related_thoughts.length ≤ 2 ∧
    (∀ m ∈ (store false (Perception.mk "s" "neutral" [] "statement" 0) [] "r" 7
        (MemState.mk [] none)).memories, m.related_thoughts.length ≤ 2) ∧
    (∀ m ∈ load_memories [], m.related_thoughts.length ≤ 2) :=
  related_thoughts_at_most_two _ [] "r" 7 false (MemState.mk [] none) []
    (by simp) (by simp)

/-- C6: a failing persisted-file write inside `store` is absorbed: `store`
still returns (it is a total function of the fault flag), the new Memory stays
appended to the in-memory list, and on a failing write the file is left as it
was. -/
theorem store_absorbs_save_failure (saveFault : Bool) (perception : Perception)
    (thoughts : List Thought) (response : String) (now : Nat) (st : MemState) :
    (store saveFault perception thoughts response now st).memories =
      st.memories ++ [store_memory perception thoughts response now] ∧
    (saveFault = true → (store saveFault perception thoughts response now st).file = st.file) := by
  cases saveFault <;> simp [store, save_memories]

theorem store_absorbs_save_failure_witness :
    (store true (Perception.mk "" "neutral" [] "statement" 0) [] "r" 0
        (MemState.mk [] none)).memories =
      [] ++ [store_memory (Perception.mk "" "neutral" [] "statement" 0) [] "r" 0] ∧
    (true = true → (store true (Perception.mk "" "neutral" [] "statement" 0) [] "r" 0
        (MemState.mk [] none)).file = none) :=
  store_absorbs_save_failure true _ [] "r" 0 (MemState.mk [] none)

/-- C10: `contemplate` never reads its `personality` argument (step gating uses
the engine's own trait profile), so any two personality values — of any types,
in particular the orchestrator's boolean-valued mapping — give identical thought
sequences. -/
theorem contemplate_ignores_personality {α β : Type} (traits : PersonalityTraits)
    (perception : Perception) (memories : List Memory) (personality1 : α) (personality2 : β)
    (now : Nat) :
    contemplate traits perception memories personality1 now =
      contemplate traits perception memories personality2 now := rfl

/-- C9: the detected emotion is "positive" exactly when the case-insensitive
positive-lexicon hit count strictly exceeds the negative one, "negative" in the
reversed case, and "neutral" exactly on ties; on "I love this wonderful day"
the counts are 2 and 0 and the emotion is positive. -/
theorem analyze_emotion_spec :
    (∀ text : String,
      (analyze_emotion text = "positive" ↔ negativeCount text < positiveCount text) ∧
      (analyze_emotion text = "negative" ↔ positiveCount text < negativeCount text) ∧
      (analyze_emotion text = "neutral" ↔ positiveCount text = negativeCount text)) ∧
    analyze_emotion "I love this wonderful day" = "positive" ∧
    positiveCount "I love this wonderful day" = 2 ∧
    negativeCount "I love this wonderful day" = 0 := by
  refine ⟨fun text => ?_, by decide, by decide, by decide⟩
  unfold analyze_emotion
  by_cases h1 : positiveCount text > negativeCount text
  · rw [if_pos h1]
    exact ⟨⟨fun _ => h1, fun _ => rfl⟩,
      ⟨fun h => absurd h (by decide), fun h2 => absurd h2 (by omega)⟩,
      ⟨fun h => absurd h (by decide), fun h2 => absurd h2 (by omega)⟩⟩
  · rw [if_neg h1]
    by_cases h2 : negativeCount text > positiveCount text
    · rw [if_pos h2]
      exact ⟨⟨fun h => absurd h (by decide), fun h3 => absurd h3 (by omega)⟩,
        ⟨fun _ => h2, fun _ => rfl⟩,
        ⟨fun h => absurd h (by decide), fun h3 => absurd h3 (by omega)⟩⟩
    · rw [if_neg h2]
      exact ⟨⟨fun h => absurd h (by decide), fun h3 => absurd h3 (by omega)⟩,
        ⟨fun h => absurd h (by decide), fun h3 => absurd h3 (by omega)⟩,
        ⟨fun _ => by omega, fun _ => rfl⟩⟩

/-- C3: on a "statement" perception with no key concepts, an empty memory list
and a trait profile with introspection 0.9 and curiosity 0.8 (other traits at
most 0.6), `contemplate` yields exactly the initial-reaction observation, the
meta-reflection and the generic curious question, in that order, with no
memory-reflection thought; and `contemplate` always returns a non-empty list. -/
theorem contemplate_statement_scenario {α : Type} (traits : PersonalityTraits)
    (perception : Perception) (personality : α) (now : Nat)
    (hq : perception.question_type = "statement")
    (hk : perception.key_concepts = [])
    (hi : traits.introspection = 0.9)
    (hcur : traits.curiosity = 0.8)
    (hemp : traits.empathy ≤ 0.6) (hsk : traits.skepticism ≤ 0.6)
    (hcr : traits.creativity ≤ 0.6) :
    contemplate traits perception [] personality now =
      [{ content := "Let me process what this person is communicating to me"
         timestamp := now
         thought_type := "observation"
         confidence := 0.7
         emotional_valence := 0.1 },
       { content := "I notice I'm approaching this in a particular way - let me consider if there are other perspectives"
         timestamp := now
         thought_type := "meta-reflection"
         confidence := 0.7
         emotional_valence := 0.2 },
       { content := "There might be layers to this that I haven't considered yet"
         timestamp := now
         thought_type := "question"
         confidence := 0.6
         emotional_valence := 0.3 }] ∧
    (∀ t ∈ contemplate traits perception [] personality now, t.thought_type ≠ "reflection") ∧
    (∀ {β : Type} (traits2 : PersonalityTraits) (p2 : Perception) (mems2 : List Memory)
      (pers2 : β) (now2 : Nat), contemplate traits2 p2 mems2 pers2 now2 ≠ []) := by
  refine ⟨?_, ?_, ?_⟩
  · unfold contemplate generate_initial_reaction meta_reflection generate_curious_thought
    rw [hq, hk, hi, hcur]
    norm_num
    rw [if_neg (by decide : ¬("statement" = "philosophical")),
      if_neg (by decide : ¬("statement" = "inquiry"))]
  · intro t ht
    unfold contemplate generate_initial_reaction meta_reflection generate_curious_thought at ht
    rw [hq, hk, hi, hcur] at ht
    norm_num at ht
    rcases ht with rfl | rfl | rfl <;> simp
  · intro β traits2 p2 mems2 pers2 now2
    unfold contemplate
    split <;> split <;> split <;> simp

theorem contemplate_statement_scenario_witness :
    contemplate (PersonalityTraits.mk 0.8 0.6 0.6 0.5 0.9)
        (Perception.mk "ok" "neutral" [] "statement" 0.2) [] (0 : Nat) 5 =
      [{ content := "Let me process what this person is communicating to me"
         timestamp := 5
         thought_type := "observation"
         confidence := 0.7
         emotional_valence := 0.1 },
       { content := "I notice I'm approaching this in a particular way - let me consider if there are other perspectives"
         timestamp := 5
         thought_type := "meta-reflection"
         confidence := 0.7
         emotional_valence := 0.2 },
       { content := "There might be layers to this that I haven't considered yet"
         timestamp := 5
         thought_type := "question"
         confidence := 0.6
         emotional_valence := 0.3 }] :=
  (contemplate_statement_scenario (PersonalityTraits.mk 0.8 0.6 0.6 0.5 0.9)
    (Perception.mk "ok" "neutral" [] "statement" 0.2) (0 : Nat) 5
    rfl rfl rfl rfl (by norm_num) (by norm_num) (by norm_num)).1

/-- C5: whenever one of the five pipeline stages of `think` raises, `think`
returns the fixed apology string and the Memory Store's in-memory sequence is
left unchanged (in particular no memory is recorded when `perceive` raises). -/
theorem think_fault_returns_fallback (f : StageFaults) (now : Nat) (agent : AgentState)
    (stimulus : String)
    (h : f.perceiveF = true ∨ f.recallF = true ∨ f.contemplateF = true ∨
      f.respondF = true ∨ f.storeF = true) :
    (think f now agent stimulus).1 = fallback_response ∧
    (think f now agent stimulus).2.memory.memories = agent.memory.memories := by
  obtain ⟨p, r, c, res, st, sv⟩ := f
  cases p <;> cases r <;> cases c <;> cases res <;> cases st <;>
    simp_all [think]

theorem think_fault_returns_fallback_witness :
    (think (StageFaults.mk true false false false false false) 0
        (AgentState.mk (MemState.mk [] none) [] personality_traits agent_personality) "hello").1 =
      fallback_response ∧
    (think (StageFaults.mk true false false false false false) 0
        (AgentState.mk (MemState.mk [] none) [] personality_traits agent_personality)
          "hello").2.memory.memories =
      (AgentState.mk (MemState.mk [] none) [] personality_traits agent_personality).memory.memories :=
  think_fault_returns_fallback (StageFaults.mk true false false false false false) 0
    (AgentState.mk (MemState.mk [] none) [] personality_traits agent_personality) "hello"
    (Or.inl rfl)

theorem memGe_trans : ∀ (a b c : Memory), memGe a b → memGe b c → memGe a c := by
  intro a b c h1 h2
  simp only [memGe, decide_eq_true_eq] at h1 h2 ⊢
  rcases h1 with h1 | ⟨h1e, h1t⟩ <;> rcases h2 with h2 | ⟨h2e, h2t⟩
  · exact Or.inl (lt_trans h2 h1)
  · exact Or.inl (h2e.trans_lt h1)
  · exact Or.inl (lt_of_lt_of_eq h2 h1e)
  · exact Or.inr ⟨h2e.trans h1e, h2t.trans h1t⟩

theorem memGe_total : ∀ (a b : Memory), memGe a b || memGe b a := by
  intro a b
  simp only [memGe, Bool.or_eq_true, decide_eq_true_eq]
  rcases lt_trichotomy a.importance b.importance with h | h | h
  · exact Or.inr (Or.inl h)
  · rcases Nat.le_total a.timestamp b.timestamp with ht | ht
    · exact Or.inr (Or.inr ⟨h, ht⟩)
    · exact Or.inl (Or.inr ⟨h.symm, ht⟩)
  · exact Or.inl (Or.inl h)

/-- C4: `recall` returns at most 3 memories; every returned memory shares a
whitespace token of its lowered content with the key concepts; the result is
pairwise non-increasing in the (importance, timestamp) composite key (equal
importances ordered by later timestamp first); and with no sharing memory the
result is empty. -/
theorem recall_spec (memories : List Memory) (perception : Perception) :
    (recall_memories memories perception).length ≤ 3 ∧
    (∀ m ∈ recall_memories memories perception,
      tokens_share perception.key_concepts m = true) ∧
    (recall_memories memories perception).Pairwise (fun a b =>
      b.importance < a.importance ∨
        (b.importance = a.importance ∧ b.timestamp ≤ a.timestamp)) ∧
    ((∀ m ∈ memories, tokens_share perception.key_concepts m = false) →
      recall_memories memories perception = []) := by
  refine ⟨?_, ?_, ?_, ?_⟩
  · simp only [recall_memories, List.length_take]
    omega
  · intro m hm
    simp only [recall_memories] at hm
    have h1 := List.mem_of_mem_take hm
    have h2 := List.mem_mergeSort.mp h1
    exact List.of_mem_filter h2
  · have hs := List.sorted_mergeSort memGe_trans memGe_total
      (memories.filter (fun m => tokens_share perception.key_concepts m))
    have hs2 := List.Pairwise.sublist (List.take_sublist 3 _) hs
    simp only [recall_memories]
    exact hs2.imp (fun h => by simpa [memGe, decide_eq_true_eq] using h)
  · intro hnone
    have hfil : memories.filter (fun m => tokens_share perception.key_concepts m) = [] := by
      rw [List.filter_eq_nil_iff]
      intro a ha
      simp [hnone a ha]
    simp [recall_memories, hfil]

theorem recall_spec_witness :
    recall_memories [] (Perception.mk "x" "neutral" ["hello"] "statement" 0.1) = [] :=
  (recall_spec [] (Perception.mk "x" "neutral" ["hello"] "statement" 0.1)).2.2.2
    (by simp)

theorem charDigit_digitChar (d : Nat) (h : d < 10) : charDigit (digitChar d) = d := by
  interval_cases d <;> decide

theorem isDigit_digitChar (d : Nat) (h : d < 10) : (digitChar d).isDigit = true := by
  interval_cases d <;> decide

theorem foldl_digits (l : List Nat) (hl : ∀ d ∈ l, d < 10) :
    (l.reverse.map digitChar).foldl (fun acc c => acc * 10 + charDigit c) 0 =
      Nat.ofDigits 10 l := by
  induction l with
  | nil => simp [Nat.ofDigits]
  | cons d ds ih =>
    have hd : d < 10 := hl d (List.mem_cons_self d ds)
    have hds : ∀ x ∈ ds, x < 10 := fun x hx => hl x (List.mem_cons_of_mem d hx)
    simp only [List.reverse_cons, List.map_append, List.map_cons, List.map_nil,
      List.foldl_append, List.foldl_cons, List.foldl_nil]
    rw [ih hds, charDigit_digitChar d hd, Nat.ofDigits_cons]
    ring

theorem fromisoformat_isoformat (t : Nat) : fromisoformat (isoformat t) = some t := by
  cases hd : Nat.digits 10 t with
  | nil =>
    have ht : t = 0 := Nat.digits_eq_nil_iff_eq_zero.mp hd
    subst ht
    have hiso : isoformat 0 = "0" := by
      unfold isoformat
      rw [hd]
    rw [hiso]
    decide
  | cons d ds =>
    have hlt : ∀ x ∈ Nat.digits 10 t, x < 10 := fun x hx =>
      Nat.digits_lt_base (by norm_num) hx
    have hiso : isoformat t = String.mk ((d :: ds).reverse.map digitChar) := by
      unfold isoformat
      rw [hd]
    rw [hd] at hlt
    rw [hiso]
    unfold fromisoformat
    have hdata : (String.mk ((d :: ds).reverse.map digitChar)).data
        = (d :: ds).reverse.map digitChar := rfl
    rw [if_pos]
    · rw [hdata, foldl_digits (d :: ds) hlt, ← hd, Nat.ofDigits_digits]
    · constructor
      · rw [hdata]
        simp
      · rw [hdata, List.all_eq_true]
        intro c hc
        obtain ⟨x, hx, rfl⟩ := List.mem_map.mp hc
        exact isDigit_digitChar x (hlt x (List.mem_reverse.mp hx))

theorem memory_of_record_record (m : Memory) :
    memory_of_record (record_of_memory m) = some m := by
  simp [memory_of_record, record_of_memory, fromisoformat_isoformat]

/-- C7: serializing the whole in-memory sequence as `_save_memories` does and
rebuilding it as `_load_memories` does returns exactly the same memories,
field for field, the timestamps being recovered through the format/parse
round trip. -/
theorem save_load_roundtrip (memories : List Memory) :
    load_memories (save_data memories) = memories ∧
    (load_memories (save_data memories)).length = memories.length := by
  have hloop : ∀ (ms : List Memory) (acc : List Memory),
      List.mapM.loop memory_of_record (save_data ms) acc = some (acc.reverse ++ ms) := by
    intro ms
    induction ms with
    | nil =>
      intro acc
      simp [save_data, List.mapM.loop]
    | cons m ms ih =>
      intro acc
      simp only [save_data, List.map_cons, List.mapM.loop, memory_of_record_record,
        Option.bind_eq_bind, Option.some_bind]
      rw [show List.map record_of_memory ms = save_data ms from rfl, ih (m :: acc)]
      simp
  have h : (save_data memories).mapM memory_of_record = some memories := by
    rw [show (save_data memories).mapM memory_of_record
        = List.mapM.loop memory_of_record (save_data memories) [] from rfl]
    rw [hloop memories []]
    simp
  constructor
  · unfold load_memories
    rw [h]
  · unfold load_memories
    rw [h]

theorem respond_cons (t : Thought) (ts : List Thought) :
    respond (t :: ts) =
      (match (t :: ts).filter (fun u => decide (u.confidence > 0.7) &&
          decide (u ≠ ts.foldl (fun acc u => if acc.confidence < u.confidence then u else acc) t)) with
      | [] => "From my perspective, " ++
          pyLower (ts.foldl (fun acc u => if acc.confidence < u.confidence then u else acc) t).content
      | s :: _ =>
        ("From my perspective, " ++
            pyLower (ts.foldl (fun acc u => if acc.confidence < u.confidence then u else acc) t).content) ++
          " " ++ ("I also consider that " ++ pyLower s.content)) := rfl

theorem foldl_main_mem (t : Thought) (ts : List Thought) :
    ts.foldl (fun acc u => if acc.confidence < u.confidence then u else acc) t ∈ t :: ts := by
  induction ts generalizing t with
  | nil => simp
  | cons u us ih =>
    simp only [List.foldl_cons]
    by_cases h : t.confidence < u.confidence
    · rw [if_pos h]
      rcases List.mem_cons.mp (ih u) with h2 | h2
      · rw [h2]
        exact List.mem_cons_of_mem t (List.mem_cons_self u us)
      · exact List.mem_cons_of_mem t (List.mem_cons_of_mem u h2)
    · rw [if_neg h]
      rcases List.mem_cons.mp (ih t) with h2 | h2
      · rw [h2]
        exact List.mem_cons_self t _
      · exact List.mem_cons_of_mem t (List.mem_cons_of_mem u h2)

theorem foldl_main_ge (t : Thought) (ts : List Thought) :
    ∀ v ∈ t :: ts, v.confidence ≤
      (ts.foldl (fun acc u => if acc.confidence < u.confidence then u else acc) t).confidence := by
  induction ts generalizing t with
  | nil =>
    intro v hv
    rcases List.mem_cons.mp hv with rfl | h
    · exact le_refl _
    · simp at h
  | cons u us ih =>
    intro v hv
    simp only [List.foldl_cons]
    by_cases h : t.confidence < u.confidence
    · rw [if_pos h]
      rcases List.mem_cons.mp hv with h2 | hv2
      · rw [h2]
        exact le_trans (le_of_lt h) (ih u u (List.mem_cons_self u us))
      · exact ih u v hv2
    · rw [if_neg h]
      rcases List.mem_cons.mp hv with h2 | hv2
      · rw [h2]
        exact ih t t (List.mem_cons_self t us)
      · rcases List.mem_cons.mp hv2 with h3 | hv3
        · rw [h3]
          exact le_trans (not_lt.mp h) (ih t t (List.mem_cons_self t us))
        · exact ih t v (List.mem_cons_of_mem t hv3)

theorem foldl_main_first (ts : List Thought) : ∀ (t : Thought),
    ∃ pre post, t :: ts = pre ++
        (ts.foldl (fun acc u => if acc.confidence < u.confidence then u else acc) t) :: post ∧
      ∀ v ∈ pre, v.confidence <
        (ts.foldl (fun acc u => if acc.confidence < u.confidence then u else acc) t).confidence := by
  induction ts with
  | nil =>
    intro t
    exact ⟨[], [], rfl, by simp⟩
  | cons u us ih =>
    intro t
    simp only [List.foldl_cons]
    by_cases h : t.confidence < u.confidence
    · rw [if_pos h]
      obtain ⟨pre, post, heq, hlt⟩ := ih u
      refine ⟨t :: pre, post, ?_, ?_⟩
      · rw [List.cons_append, ← heq]
      · intro v hv
        rcases List.mem_cons.mp hv with h2 | h2
        · rw [h2]
          exact lt_of_lt_of_le h (foldl_main_ge u us u (List.mem_cons_self u us))
        · exact hlt v h2
    · rw [if_neg h]
      obtain ⟨pre, post, heq, hlt⟩ := ih t
      cases pre with
      | nil =>
        simp only [List.nil_append] at heq
        have hm : us.foldl (fun acc u => if acc.confidence < u.confidence then u else acc) t = t := by
          have := heq
          injection this with h1 h2
          exact h1.symm
        refine ⟨[], u :: us, ?_, by simp⟩
        rw [hm, List.nil_append]
      | cons p ps =>
        rw [List.cons_append] at heq
        injection heq with h1 h2
        refine ⟨t :: u :: ps, post, ?_, ?_⟩
        · rw [List.cons_append, List.cons_append, ← h2]
        · intro v hv
          have htlt : t.confidence <
              (us.foldl (fun acc u => if acc.confidence < u.confidence then u else acc) t).confidence := by
            have := hlt p (List.mem_cons_self p ps)
            rw [← h1] at this
            exact this
          rcases List.mem_cons.mp hv with h2 | hv2
          · rw [h2]
            exact htlt
          · rcases List.mem_cons.mp hv2 with h3 | hv3
            · rw [h3]
              exact lt_of_le_of_lt (not_lt.mp h) htlt
            · exact hlt v (List.mem_cons_of_mem p hv3)

theorem filter_head_first {α : Type} (p : α → Bool) : ∀ (l : List α) (s : α) (l2 : List α),
    l.filter p = s :: l2 → ∃ pre post, l = pre ++ s :: post ∧ ∀ v ∈ pre, p v = false := by
  intro l
  induction l with
  | nil =>
    intro s l2 h
    simp at h
  | cons a as ih =>
    intro s l2 h
    rw [List.filter_cons] at h
    by_cases hp : p a = true
    · rw [if_pos hp] at h
      injection h with h1 h2
      exact ⟨[], as, by rw [h1, List.nil_append], by simp⟩
    · rw [if_neg hp] at h
      obtain ⟨pre, post, heq, hfalse⟩ := ih s l2 h
      refine ⟨a :: pre, post, by rw [List.cons_append, heq], ?_⟩
      intro v hv
      rcases List.mem_cons.mp hv with h2 | h2
      · rw [h2]
        exact Bool.eq_false_iff.mpr hp
      · exact hfalse v h2

/-- C8: `respond` on an empty thought list is the fixed placeholder; on a
non-empty list the reply opens with a clause from the lowered content of the
FIRST thought of maximum confidence (every thought strictly before the main one
has strictly smaller confidence, and no thought beats it), and exactly one
second clause is appended — joined by a single space — precisely when some
thought other than the main one has confidence above 0.7, that clause being
built from the first such thought (every earlier thought fails the supporting
test); in particular thoughts A (confidence 0.9) and B (confidence 0.75)
produce A's clause then B's clause. -/
theorem respond_spec :
    respond [] = "I'm still processing that... give me a moment to think." ∧
    (∀ (t : Thought) (ts : List Thought),
      ∃ (main : Thought) (pre post : List Thought),
        t :: ts = pre ++ main :: post ∧
        (∀ v ∈ pre, v.confidence < main.confidence) ∧
        (∀ v ∈ t :: ts, v.confidence ≤ main.confidence) ∧
        ((∀ u ∈ t :: ts, ¬(0.7 < u.confidence ∧ u ≠ main)) →
          respond (t :: ts) = "From my perspective, " ++ pyLower main.content) ∧
        (∀ u ∈ t :: ts, 0.7 < u.confidence → u ≠ main →
          ∃ (s : Thought) (pre2 post2 : List Thought),
            t :: ts = pre2 ++ s :: post2 ∧
            0.7 < s.confidence ∧ s ≠ main ∧
            (∀ v ∈ pre2, ¬(0.7 < v.confidence ∧ v ≠ main)) ∧
            respond (t :: ts) = ("From my perspective, " ++ pyLower main.content) ++
              " " ++ ("I also consider that " ++ pyLower s.content))) ∧
    (∀ (A B : Thought), A.confidence = 0.9 → B.confidence = 0.75 →
      respond [A, B] = "From my perspective, " ++ pyLower A.content ++ " " ++
        ("I also consider that " ++ pyLower B.content)) := by
  refine ⟨rfl, ?_, ?_⟩
  · intro t ts
    obtain ⟨pre, post, hdec, hpre⟩ := foldl_main_first ts t
    refine ⟨ts.foldl (fun acc u => if acc.confidence < u.confidence then u else acc) t,
      pre, post, hdec, ?_, ?_, ?_, ?_⟩
    · exact hpre
    · exact foldl_main_ge t ts
    · intro hnone
      have hfil : (t :: ts).filter (fun u => decide (u.confidence > 0.7) &&
          decide (u ≠ ts.foldl (fun acc u => if acc.confidence < u.confidence then u else acc) t)) = [] := by
        rw [List.filter_eq_nil_iff]
        intro a ha hcon
        simp only [Bool.and_eq_true, decide_eq_true_eq] at hcon
        exact hnone a ha ⟨hcon.1, hcon.2⟩
      rw [respond_cons, hfil]
    · intro u hu huc hune
      cases hf : (t :: ts).filter (fun u => decide (u.confidence > 0.7) &&
          decide (u ≠ ts.foldl (fun acc u => if acc.confidence < u.confidence then u else acc) t)) with
      | nil =>
        exfalso
        rw [List.filter_eq_nil_iff] at hf
        exact hf u hu (by simp only [Bool.and_eq_true, decide_eq_true_eq]; exact ⟨huc, hune⟩)
      | cons s l2 =>
        have hs : s ∈ (t :: ts).filter (fun u => decide (u.confidence > 0.7) &&
            decide (u ≠ ts.foldl (fun acc u => if acc.confidence < u.confidence then u else acc) t)) := by
          rw [hf]
          exact List.mem_cons_self s l2
        have hmem := List.mem_filter.mp hs
        have hprop := hmem.2
        simp only [Bool.and_eq_true, decide_eq_true_eq] at hprop
        obtain ⟨pre2, post2, heq2, hfalse⟩ := filter_head_first
          (fun (u : Thought) => decide (u.confidence > 0.7) &&
            decide (u ≠ ts.foldl (fun acc u => if acc.confidence < u.confidence then u else acc) t))
          (t :: ts) s l2 hf
        refine ⟨s, pre2, post2, heq2, ?_, ?_, ?_, ?_⟩
        · exact hprop.1
        · exact hprop.2
        · intro v hv hcon
          have hfv := hfalse v hv
          have htrue : (decide (v.confidence > 0.7) &&
              decide (v ≠ ts.foldl (fun acc u => if acc.confidence < u.confidence then u else acc) t)) = true := by
            simp only [Bool.and_eq_true, decide_eq_true_eq]
            exact ⟨hcon.1, hcon.2⟩
          rw [htrue] at hfv
          simp at hfv
        · rw [respond_cons, hf]
  · intro A B hA hB
    have hm : [B].foldl (fun acc u => if acc.confidence < u.confidence then u else acc) A = A := by
      simp only [List.foldl_cons, List.foldl_nil]
      rw [if_neg]
      rw [hA, hB]
      norm_num
    have hBA : B ≠ A := by
      intro h
      rw [h, hA] at hB
      norm_num at hB
    have hfA : (decide (A.confidence > 0.7) && decide (A ≠ A)) = false := by simp
    have hfB : (decide (B.confidence > 0.7) && decide (B ≠ A)) = true := by
      simp only [Bool.and_eq_true, decide_eq_true_eq]
      refine ⟨?_, hBA⟩
      rw [hB]
      norm_num
    have hfil : [A, B].filter (fun u => decide (u.confidence > 0.7) &&
        decide (u ≠ [B].foldl (fun acc u => if acc.confidence < u.confidence then u else acc) A)) = [B] := by
      rw [hm]
      simp only [List.filter_cons, hfA, hfB, List.filter_nil]
      simp
    have he : respond [A, B] =
        ("From my perspective, " ++ pyLower A.content) ++ " " ++
          ("I also consider that " ++ pyLower B.content) := by
      rw [respond_cons, hfil, hm]
    exact he

theorem respond_spec_witness :
    respond [Thought.mk "Alpha insight" 1 "observation" 0.9 0.1,
        Thought.mk "Beta insight" 2 "reflection" 0.75 0.2] =
      "From my perspective, " ++
        pyLower (Thought.mk "Alpha insight" 1 "observation" 0.9 0.1).content ++ " " ++
        ("I also consider that " ++
          pyLower (Thought.mk "Beta insight" 2 "reflection" 0.75 0.2).content) :=
  respond_spec.2.2 (Thought.mk "Alpha insight" 1 "observation" 0.9 0.1)
    (Thought.mk "Beta insight" 2 "reflection" 0.75 0.2) rfl rfl
